import Mathlib

/-!
The SQS sample client (`sqs/main.go`).

A shallow embedding of `main`, `sendMessage`, `receiveMessage` and
`deleteMessage`, with the queue service as a deterministic oracle over the
history of the calls issued so far, and the two output streams as the list of
the texts written, one entry for each write.
-/

namespace SQSSample

/-! ## Data model -/

/-- The text of a Go `error` value (what `err.Error()` returns). -/
abbrev Error := String

/-- Type `sqs.Message`, the two fields the program reads. Both are `*string` in
the SDK, so either may be nil. -/
structure Message where
  Body : Option String
  ReceiptHandle : Option String
  deriving DecidableEq, Repr

/-- Type `sqs.SendMessageInput` as `sendMessage` fills it: `QueueUrl` is the
flag variable, `MessageBody` is `aws.String(msg)`; the other fields stay unset. -/
structure SendMessageInput where
  QueueUrl : String
  MessageBody : String
  deriving DecidableEq, Repr

/-- Type `sqs.ReceiveMessageInput` as `receiveMessage` fills it. -/
structure ReceiveMessageInput where
  QueueUrl : String
  MaxNumberOfMessages : Int
  deriving DecidableEq, Repr

/-- Type `sqs.DeleteMessageInput` as `deleteMessage` fills it: the receipt
handle pointer is copied from the message without being dereferenced. -/
structure DeleteMessageInput where
  QueueUrl : String
  ReceiptHandle : Option String
  deriving DecidableEq, Repr

/-- Type `sqs.ReceiveMessageOutput`, the field the program reads. -/
structure ReceiveMessageOutput where
  Messages : List Message
  deriving DecidableEq, Repr

/-- One remote call, as recorded in the history. -/
inductive Call where
  | send (p : SendMessageInput)
  | receive (p : ReceiveMessageInput)
  | delete (p : DeleteMessageInput)
  deriving DecidableEq, Repr

/-- Whether the call is a `SendMessage`. -/
def Call.isSend : Call → Bool
  | .send _ => true
  | _ => false

/-- Whether the call is a `ReceiveMessage`. -/
def Call.isReceive : Call → Bool
  | .receive _ => true
  | _ => false

/-- Whether the call is a `DeleteMessage`. -/
def Call.isDelete : Call → Bool
  | .delete _ => true
  | _ => false

/-- The client `*sqs.SQS`: each operation answers from the calls issued before
it and its own parameters. For `SendMessage` and `DeleteMessage` the program
discards the output and looks only at the error (`none` is a nil error). -/
structure SQS where
  SendMessage : List Call → SendMessageInput → Option Error
  ReceiveMessage : List Call → ReceiveMessageInput → Except Error ReceiveMessageOutput
  DeleteMessage : List Call → DeleteMessageInput → Option Error

/-- What the process has done so far: the remote calls issued and the texts
written to standard output and standard error, oldest first. -/
structure World where
  calls : List Call
  stdout : List String
  stderr : List String
  deriving DecidableEq, Repr

/-- The state at process start. -/
def World.init : World := ⟨[], [], []⟩

/-- How a function call ends: it returns a value, or the Go runtime panics on a
nil pointer dereference. -/
inductive Outcome (α : Type) where
  | ret (a : α)
  | panic
  deriving DecidableEq, Repr

/-- The package-level flag variables after `flag.Parse()` has returned, and
`flag.Args()`. -/
structure Flags where
  region : String
  queueURL : String
  delete : Bool
  args : List String
  deriving DecidableEq, Repr

/-- What `main` takes from outside the source file: the client constructor
`sqs.New(session.New(&aws.Config{Region: region}))` as a function of the region,
and the header (date and time) the standard logger writes before a message. -/
structure Env where
  New : String → SQS
  logHeader : String

/-! ## Output texts -/

/-- Text of `fmt.Printf("message sent %v: %v\n", i, msg)`. -/
def sentLine (i : Nat) (msg : String) : String :=
  "message sent " ++ toString i ++ ": " ++ msg ++ "\n"

/-- Text of `fmt.Printf("message received %v: %v\n", i, *msg.Body)`. -/
def receivedLine (i : Nat) (body : String) : String :=
  "message received " ++ toString i ++ ": " ++ body ++ "\n"

/-- Text of `fmt.Printf("message deleted %v: %v\n", i, *msg.Body)`. -/
def deletedLine (i : Nat) (body : String) : String :=
  "message deleted " ++ toString i ++ ": " ++ body ++ "\n"

/-- Text of `fmt.Fprintln(os.Stderr, "-queue-url is required")`. -/
def requiredLine : String := "-queue-url is required\n"

/-- The text written by the function `main` assigns to `flag.Usage`: the usage
line for program name `prog` (`os.Args[0]`), then `flag.PrintDefaults()`, whose
text `defaults` comes from the flag library. -/
def Usage (prog defaults : String) : String :=
  "Usage: " ++ prog ++ " -queue-url <queue-url> [-region <region>] [-delete] [mesages...]\n"
    ++ defaults

/-! ## The three operations -/

/-- The `for i, msg := range msgs` loop of `sendMessage`, from index `i`. -/
def sendLoop (svc : SQS) (queueURL : String) : Nat → List String → World → World × Option Error
  | _, [], w => (w, none)
  | i, msg :: rest, w =>
    let sendParams : SendMessageInput := ⟨queueURL, msg⟩
    let w1 : World := ⟨w.calls ++ [Call.send sendParams], w.stdout, w.stderr⟩
    match svc.SendMessage w.calls sendParams with
    | some err => (w1, some err)
    | none => sendLoop svc queueURL (i + 1) rest ⟨w1.calls, w1.stdout ++ [sentLine i msg], w1.stderr⟩

/-- Function `sendMessage(svc, msgs...)`. -/
def sendMessage (svc : SQS) (queueURL : String) (msgs : List String) (w : World) :
    World × Option Error :=
  sendLoop svc queueURL 0 msgs w

/-- The `for i, msg := range res.Messages` loop of `receiveMessage`, from
index `i`; `*msg.Body` panics on a nil body. -/
def printReceived : Nat → List Message → World → World × Outcome Unit
  | _, [], w => (w, .ret ())
  | i, msg :: rest, w =>
    match msg.Body with
    | none => (w, .panic)
    | some body => printReceived (i + 1) rest ⟨w.calls, w.stdout ++ [receivedLine i body], w.stderr⟩

/-- Function `receiveMessage(svc, count)`; the pair returned is
`([]*sqs.Message, error)`, a nil slice being `[]`. -/
def receiveMessage (svc : SQS) (queueURL : String) (count : Int) (w : World) :
    World × Outcome (List Message × Option Error) :=
  let rcvParams : ReceiveMessageInput := ⟨queueURL, count⟩
  let w1 : World := ⟨w.calls ++ [Call.receive rcvParams], w.stdout, w.stderr⟩
  match svc.ReceiveMessage w.calls rcvParams with
  | .error err => (w1, .ret ([], some err))
  | .ok res =>
    match printReceived 0 res.Messages w1 with
    | (w2, .panic) => (w2, .panic)
    | (w2, .ret ()) => (w2, .ret (res.Messages, none))

/-- The `for i, msg := range msgs` loop of `deleteMessage`, from index `i`;
`*msg.Body` is evaluated after the call has succeeded. -/
def deleteLoop (svc : SQS) (queueURL : String) :
    Nat → List Message → World → World × Outcome (Option Error)
  | _, [], w => (w, .ret none)
  | i, msg :: rest, w =>
    let delParams : DeleteMessageInput := ⟨queueURL, msg.ReceiptHandle⟩
    let w1 : World := ⟨w.calls ++ [Call.delete delParams], w.stdout, w.stderr⟩
    match svc.DeleteMessage w.calls delParams with
    | some err => (w1, .ret (some err))
    | none =>
      match msg.Body with
      | none => (w1, .panic)
      | some body =>
        deleteLoop svc queueURL (i + 1) rest ⟨w1.calls, w1.stdout ++ [deletedLine i body], w1.stderr⟩

/-- Function `deleteMessage(svc, msgs...)`. -/
def deleteMessage (svc : SQS) (queueURL : String) (msgs : List Message) (w : World) :
    World × Outcome (Option Error) :=
  deleteLoop svc queueURL 0 msgs w

/-! ## The program -/

/-- The line the standard logger writes for message `msg`: its header, the
message, and a newline unless the message already ends with one. -/
def logLine (header msg : String) : String :=
  if msg.data.getLast? = some '\n' then header ++ msg else header ++ msg ++ "\n"

/-- Call `log.Fatal(err)`: the logger writes its line for the error text to
standard error, then `os.Exit(1)`. -/
def logFatal (env : Env) (err : Error) (w : World) : World × Nat :=
  (⟨w.calls, w.stdout, w.stderr ++ [logLine env.logHeader err]⟩, 1)

/-- Exit status of a process the Go runtime ends on a panic. -/
def panicStatus : Nat := 2

/-- Function `main` from the statement after `flag.Parse()` on: the final state
and the exit status. The exits `flag.Parse()` takes by itself (`-h`, a malformed
flag) happen before and are not part of it; the text of a panic report is not
recorded in `stderr`. -/
def main (env : Env) (f : Flags) : World × Nat :=
  let w0 := World.init
  if f.queueURL = "" then
    (⟨w0.calls, w0.stdout, w0.stderr ++ [requiredLine]⟩, 1)
  else
    let svc := env.New f.region
    let msgs := f.args
    let sent : World × Option Error :=
      if msgs.length > 0 then sendMessage svc f.queueURL msgs w0 else (w0, none)
    match sent with
    | (w1, some err) => logFatal env err w1
    | (w1, none) =>
      let count : Int := 10
      match receiveMessage svc f.queueURL count w1 with
      | (w2, .panic) => (w2, panicStatus)
      | (w2, .ret (_, some err)) => logFatal env err w2
      | (w2, .ret (rmsgs, none)) =>
        if f.delete then
          match deleteMessage svc f.queueURL rmsgs w2 with
          | (w3, .panic) => (w3, panicStatus)
          | (w3, .ret (some err)) => logFatal env err w3
          | (w3, .ret none) => (w3, 0)
        else
          (w2, 0)


/-! ## Vocabulary of the statements -/

/-- The `SendMessage` call for body `m` on queue `url`. -/
def sendCall (url m : String) : Call := .send ⟨url, m⟩

/-- The `ReceiveMessage` call asking for at most `count` messages of queue `url`. -/
def receiveCall (url : String) (count : Int) : Call := .receive ⟨url, count⟩

/-- The `DeleteMessage` call for the receipt handle of `r` on queue `url`. -/
def deleteCall (url : String) (r : Message) : Call := .delete ⟨url, r.ReceiptHandle⟩

/-- The body of a message that has one. -/
def bodyOf (r : Message) : String := r.Body.getD ""

/-- The confirmation lines of the bodies `msgs`, numbered from `i`. -/
def sentLines (i : Nat) (msgs : List String) : List String :=
  (msgs.enumFrom i).map fun p => sentLine p.1 p.2

/-- The lines `receiveMessage` prints for `rs`, numbered from `i`. -/
def receivedLines (i : Nat) (rs : List Message) : List String :=
  (rs.enumFrom i).map fun p => receivedLine p.1 (bodyOf p.2)

/-- The confirmation lines of the deletions of `rs`, numbered from `i`. -/
def deletedLines (i : Nat) (rs : List Message) : List String :=
  (rs.enumFrom i).map fun p => deletedLine p.1 (bodyOf p.2)

/-- Issued one after the other from history `hist`, the sends of `msgs` all
succeed. -/
def SendsSucceed (svc : SQS) (url : String) (hist : List Call) (msgs : List String) : Prop :=
  ∀ (j : Nat) (h : j < msgs.length),
    svc.SendMessage (hist ++ (msgs.take j).map (sendCall url)) ⟨url, msgs[j]⟩ = none

/-- Issued one after the other from history `hist`, the deletions of `rs` all
succeed. -/
def DeletesSucceed (svc : SQS) (url : String) (hist : List Call) (rs : List Message) : Prop :=
  ∀ (j : Nat) (h : j < rs.length),
    svc.DeleteMessage (hist ++ (rs.take j).map (deleteCall url)) ⟨url, rs[j].ReceiptHandle⟩ = none

/-- The text starts with the words of a send confirmation. -/
def isSentLine (l : String) : Bool := "message sent ".data.isPrefixOf l.data

/-- The text starts with the words of a receive line. -/
def isReceivedLine (l : String) : Bool := "message received ".data.isPrefixOf l.data

/-- The text starts with the words of a delete confirmation. -/
def isDeletedLine (l : String) : Bool := "message deleted ".data.isPrefixOf l.data

/-- The text `needle` occurs in the concatenation of the texts written. -/
def Shows (written : List String) (needle : String) : Prop :=
  needle.data <:+: (String.join written).data

/-! ## Sample services and environments -/

/-- A service on which every send and every deletion succeeds and every receive
returns `rs`. -/
def steadyService (rs : List Message) : SQS :=
  ⟨fun _ _ => none, fun _ _ => .ok ⟨rs⟩, fun _ _ => none⟩

/-- A service like `steadyService rs`, except that a send or a deletion issued
as call number `n` of the run (counting all calls from 0) fails with `e`. -/
def faultyService (n : Nat) (e : Error) (rs : List Message) : SQS :=
  ⟨fun hist _ => if hist.length = n then some e else none, fun _ _ => .ok ⟨rs⟩,
   fun hist _ => if hist.length = n then some e else none⟩

/-- A service on which every receive fails with `e`. -/
def deafService (e : Error) : SQS :=
  ⟨fun _ _ => none, fun _ _ => .error e, fun _ _ => none⟩

/-- The environment whose client is `svc` in every region. -/
def sampleEnv (svc : SQS) : Env := ⟨fun _ => svc, "2015/06/01 12:00:00 "⟩

/-- The text `flag.PrintDefaults()` writes for the three flags of the program,
in the layout of current Go releases. -/
def flagDefaults : String :=
  "  -delete\n    \tdelete received messages\n  -queue-url string\n    \tSQS URL. Required\n" ++
  "  -region string\n    \tAWS region (default \"us-east-1\")\n"

/-! ## The send loop -/

theorem sendsSucceed_rest {svc : SQS} {url : String} {hist : List Call} {m : String}
    {rest : List String} (h : SendsSucceed svc url hist (m :: rest)) :
    SendsSucceed svc url (hist ++ [sendCall url m]) rest := by
  intro j hj
  have := h (j + 1) (by simpa using hj)
  simpa using this

theorem sendsSucceed_first {svc : SQS} {url : String} {hist : List Call} {m : String}
    {rest : List String} (h : SendsSucceed svc url hist (m :: rest)) :
    svc.SendMessage hist ⟨url, m⟩ = none := by
  simpa using h 0 (by simp)

/-- After the sends of `pre` have succeeded the loop stands at the rest. -/
theorem sendLoop_append (svc : SQS) (url : String) (pre rest : List String) :
    ∀ (i : Nat) (w : World), SendsSucceed svc url w.calls pre →
      sendLoop svc url i (pre ++ rest) w =
        sendLoop svc url (i + pre.length) rest
          ⟨w.calls ++ pre.map (sendCall url), w.stdout ++ sentLines i pre, w.stderr⟩ := by
  induction pre with
  | nil => intro i w _; simp [sentLines]
  | cons m pre ih =>
    intro i w h
    have h0 := sendsSucceed_first h
    have ih1 := ih (i + 1) ⟨w.calls ++ [sendCall url m], w.stdout ++ [sentLine i m], w.stderr⟩
      (sendsSucceed_rest h)
    simp only [List.cons_append, sendLoop, h0, List.append_eq]
    rw [show Call.send ⟨url, m⟩ = sendCall url m from rfl, ih1]
    simp [sentLines, List.enumFrom, Nat.add_assoc, Nat.add_comm 1]

/-- What the send loop leaves behind, whatever the service answers. -/
theorem sendLoop_frame (svc : SQS) (url : String) (msgs : List String) :
    ∀ (i : Nat) (w : World), ∃ cs ls,
      (sendLoop svc url i msgs w).1 = ⟨w.calls ++ cs, w.stdout ++ ls, w.stderr⟩ ∧
      (∀ c ∈ cs, c.isSend = true) ∧ (∀ l ∈ ls, isSentLine l = true) := by
  induction msgs with
  | nil => intro i w; exact ⟨[], [], by simp [sendLoop], by simp, by simp⟩
  | cons m rest ih =>
    intro i w
    simp only [sendLoop]
    cases hs : svc.SendMessage w.calls ⟨url, m⟩ with
    | some e => exact ⟨[Call.send ⟨url, m⟩], [], by simp, by simp [Call.isSend], by simp⟩
    | none =>
      obtain ⟨cs, ls, h1, h2, h3⟩ :=
        ih (i + 1) ⟨w.calls ++ [Call.send ⟨url, m⟩], w.stdout ++ [sentLine i m], w.stderr⟩
      refine ⟨Call.send ⟨url, m⟩ :: cs, sentLine i m :: ls, ?_, ?_, ?_⟩
      · simpa using h1
      · intro c hc
        rcases List.mem_cons.1 hc with rfl | hc
        · rfl
        · exact h2 c hc
      · intro l hl
        rcases List.mem_cons.1 hl with rfl | hl
        · simp [isSentLine, sentLine, String.append_assoc, String.data_append, List.isPrefixOf]
        · exact h3 l hl


/-! ## The receive step -/

/-- With every body present the receive loop prints one line per message. -/
theorem printReceived_bodies (rs : List Message) :
    ∀ (i : Nat) (w : World), (∀ r ∈ rs, r.Body ≠ none) →
      printReceived i rs w = (⟨w.calls, w.stdout ++ receivedLines i rs, w.stderr⟩, .ret ()) := by
  induction rs with
  | nil => intro i w _; simp [printReceived, receivedLines]
  | cons r rs ih =>
    intro i w h
    obtain ⟨b, hb⟩ := Option.ne_none_iff_exists'.1 (h r (List.mem_cons_self r rs))
    have ih1 := ih (i + 1) ⟨w.calls, w.stdout ++ [receivedLine i b], w.stderr⟩
      (fun x hx => h x (List.mem_cons_of_mem r hx))
    simp only [printReceived, hb, ih1]
    simp [receivedLines, List.enumFrom, bodyOf, hb]

/-- What the receive loop leaves behind, whatever the messages. -/
theorem printReceived_frame (rs : List Message) :
    ∀ (i : Nat) (w : World), ∃ ls,
      (printReceived i rs w).1 = ⟨w.calls, w.stdout ++ ls, w.stderr⟩ ∧
      (∀ l ∈ ls, isReceivedLine l = true) := by
  induction rs with
  | nil => intro i w; exact ⟨[], by simp [printReceived], by simp⟩
  | cons r rs ih =>
    intro i w
    simp only [printReceived]
    cases hb : r.Body with
    | none => exact ⟨[], by simp, by simp⟩
    | some b =>
      obtain ⟨ls, h1, h2⟩ := ih (i + 1) ⟨w.calls, w.stdout ++ [receivedLine i b], w.stderr⟩
      refine ⟨receivedLine i b :: ls, by simpa using h1, ?_⟩
      intro l hl
      rcases List.mem_cons.1 hl with rfl | hl
      · simp [isReceivedLine, receivedLine, String.append_assoc, String.data_append,
          List.isPrefixOf]
      · exact h2 l hl

/-- What `receiveMessage` leaves behind, whatever the service answers: one
receive call and receive lines only. -/
theorem receiveMessage_frame (svc : SQS) (url : String) (count : Int) (w : World) :
    ∃ ls, (receiveMessage svc url count w).1 =
        ⟨w.calls ++ [receiveCall url count], w.stdout ++ ls, w.stderr⟩ ∧
      (∀ l ∈ ls, isReceivedLine l = true) := by
  unfold receiveMessage
  cases hr : svc.ReceiveMessage w.calls ⟨url, count⟩ with
  | error e => exact ⟨[], by simp [hr, receiveCall], by simp⟩
  | ok res =>
    obtain ⟨ls, h1, h2⟩ := printReceived_frame res.Messages 0
      ⟨w.calls ++ [Call.receive ⟨url, count⟩], w.stdout, w.stderr⟩
    refine ⟨ls, ?_, h2⟩
    simp only [hr]
    rcases hp : printReceived 0 res.Messages
      ⟨w.calls ++ [Call.receive ⟨url, count⟩], w.stdout, w.stderr⟩ with ⟨w2, o⟩
    rw [hp] at h1
    cases o <;> simpa [receiveCall] using h1


/-! ## The delete loop -/

theorem deletesSucceed_rest {svc : SQS} {url : String} {hist : List Call} {r : Message}
    {rest : List Message} (h : DeletesSucceed svc url hist (r :: rest)) :
    DeletesSucceed svc url (hist ++ [deleteCall url r]) rest := by
  intro j hj
  have := h (j + 1) (by simpa using hj)
  simpa using this

theorem deletesSucceed_first {svc : SQS} {url : String} {hist : List Call} {r : Message}
    {rest : List Message} (h : DeletesSucceed svc url hist (r :: rest)) :
    svc.DeleteMessage hist ⟨url, r.ReceiptHandle⟩ = none := by
  simpa using h 0 (by simp)

/-- After the deletions of `pre` have succeeded, each message having its body,
the loop stands at the rest. -/
theorem deleteLoop_append (svc : SQS) (url : String) (pre rest : List Message) :
    ∀ (i : Nat) (w : World), DeletesSucceed svc url w.calls pre → (∀ r ∈ pre, r.Body ≠ none) →
      deleteLoop svc url i (pre ++ rest) w =
        deleteLoop svc url (i + pre.length) rest
          ⟨w.calls ++ pre.map (deleteCall url), w.stdout ++ deletedLines i pre, w.stderr⟩ := by
  induction pre with
  | nil => intro i w _ _; simp [deletedLines]
  | cons r pre ih =>
    intro i w h hb
    have h0 := deletesSucceed_first h
    obtain ⟨b, hr⟩ := Option.ne_none_iff_exists'.1 (hb r (List.mem_cons_self r pre))
    have ih1 := ih (i + 1) ⟨w.calls ++ [deleteCall url r], w.stdout ++ [deletedLine i b], w.stderr⟩
      (deletesSucceed_rest h) (fun x hx => hb x (List.mem_cons_of_mem r hx))
    simp only [List.cons_append, deleteLoop, h0, hr, List.append_eq]
    rw [show Call.delete ⟨url, r.ReceiptHandle⟩ = deleteCall url r from rfl, ih1]
    simp [deletedLines, List.enumFrom, Nat.add_assoc, Nat.add_comm 1, bodyOf, hr]

/-- What the delete loop leaves behind, whatever the service answers. -/
theorem deleteLoop_frame (svc : SQS) (url : String) (rs : List Message) :
    ∀ (i : Nat) (w : World), ∃ cs ls,
      (deleteLoop svc url i rs w).1 = ⟨w.calls ++ cs, w.stdout ++ ls, w.stderr⟩ ∧
      (∀ c ∈ cs, c.isDelete = true) ∧ (∀ l ∈ ls, isDeletedLine l = true) := by
  induction rs with
  | nil => intro i w; exact ⟨[], [], by simp [deleteLoop], by simp, by simp⟩
  | cons r rest ih =>
    intro i w
    simp only [deleteLoop]
    cases hs : svc.DeleteMessage w.calls ⟨url, r.ReceiptHandle⟩ with
    | some e =>
      exact ⟨[Call.delete ⟨url, r.ReceiptHandle⟩], [], by simp, by simp [Call.isDelete], by simp⟩
    | none =>
      cases hb : r.Body with
      | none =>
        exact ⟨[Call.delete ⟨url, r.ReceiptHandle⟩], [], by simp, by simp [Call.isDelete],
          by simp⟩
      | some b =>
        obtain ⟨cs, ls, h1, h2, h3⟩ := ih (i + 1)
          ⟨w.calls ++ [Call.delete ⟨url, r.ReceiptHandle⟩], w.stdout ++ [deletedLine i b], w.stderr⟩
        refine ⟨Call.delete ⟨url, r.ReceiptHandle⟩ :: cs, deletedLine i b :: ls, ?_, ?_, ?_⟩
        · simpa using h1
        · intro c hc
          rcases List.mem_cons.1 hc with rfl | hc
          · rfl
          · exact h2 c hc
        · intro l hl
          rcases List.mem_cons.1 hl with rfl | hl
          · simp [isDeletedLine, deletedLine, String.append_assoc, String.data_append,
              List.isPrefixOf]
          · exact h3 l hl

/-! ## Kinds of lines -/

theorem isReceivedLine_not_sent {l : String} (h : isReceivedLine l = true) :
    isSentLine l = false := by
  obtain ⟨t, ht⟩ := List.isPrefixOf_iff_prefix.1 h
  unfold isSentLine
  rw [← ht]
  simp [List.isPrefixOf]

theorem isDeletedLine_not_sent {l : String} (h : isDeletedLine l = true) :
    isSentLine l = false := by
  obtain ⟨t, ht⟩ := List.isPrefixOf_iff_prefix.1 h
  unfold isSentLine
  rw [← ht]
  simp [List.isPrefixOf]

theorem isSentLine_not_deleted {l : String} (h : isSentLine l = true) :
    isDeletedLine l = false := by
  obtain ⟨t, ht⟩ := List.isPrefixOf_iff_prefix.1 h
  unfold isDeletedLine
  rw [← ht]
  simp [List.isPrefixOf]

theorem isReceivedLine_not_deleted {l : String} (h : isReceivedLine l = true) :
    isDeletedLine l = false := by
  obtain ⟨t, ht⟩ := List.isPrefixOf_iff_prefix.1 h
  unfold isDeletedLine
  rw [← ht]
  simp [List.isPrefixOf]


/-! ## The program, step by step -/

/-- The guarded send step of `main` when every send succeeds (or there is none). -/
theorem sendStep_ok (svc : SQS) (url : String) (msgs : List String)
    (h : SendsSucceed svc url [] msgs) :
    (if msgs.length > 0 then sendMessage svc url msgs World.init else (World.init, none)) =
      (⟨msgs.map (sendCall url), sentLines 0 msgs, []⟩, none) := by
  have key : sendMessage svc url msgs World.init =
      (⟨msgs.map (sendCall url), sentLines 0 msgs, []⟩, none) := by
    have := sendLoop_append svc url msgs [] 0 World.init h
    simpa [sendMessage, sendLoop, World.init] using this
  cases msgs with
  | nil => simp [World.init, sentLines]
  | cons m rest => simpa using key

/-- What `main` does from the receive step on, once the send step has left
state `w1` without error: one receive call, then delete calls only, and those
only under `-delete`; receive lines and delete confirmations only. -/
theorem main_from_receive (env : Env) (f : Flags) (w1 : World) (hurl : f.queueURL ≠ "")
    (hsent : (if f.args.length > 0 then sendMessage (env.New f.region) f.queueURL f.args World.init
      else (World.init, none)) = (w1, none)) :
    ∃ cs ls, (main env f).1.calls = w1.calls ++ receiveCall f.queueURL 10 :: cs ∧
      (main env f).1.stdout = w1.stdout ++ ls ∧
      (∀ c ∈ cs, c.isDelete = true) ∧ (f.delete = false → cs = []) ∧
      (∀ l ∈ ls, isReceivedLine l = true ∨ isDeletedLine l = true) ∧
      (f.delete = false → ∀ l ∈ ls, isReceivedLine l = true) := by
  obtain ⟨ls, hw2, hls⟩ := receiveMessage_frame (env.New f.region) f.queueURL 10 w1
  simp only [main, hurl, ↓reduceIte, hsent]
  rcases hrm : receiveMessage (env.New f.region) f.queueURL 10 w1 with ⟨w2, o⟩
  rw [hrm] at hw2
  simp only at hw2
  subst hw2
  have hrl : ∀ l ∈ ls, isReceivedLine l = true ∨ isDeletedLine l = true :=
    fun l hl => Or.inl (hls l hl)
  cases o with
  | panic => exact ⟨[], ls, by simp, by simp, by simp, by simp, hrl, fun _ => hls⟩
  | ret p =>
    rcases p with ⟨rmsgs, _ | e⟩
    · cases hd : f.delete with
      | false => exact ⟨[], ls, by simp, by simp, by simp, by simp, hrl, fun _ => hls⟩
      | true =>
        obtain ⟨cs, ds, hw3, hcs, hds⟩ := deleteLoop_frame (env.New f.region) f.queueURL rmsgs 0
          ⟨w1.calls ++ [receiveCall f.queueURL 10], w1.stdout ++ ls, w1.stderr⟩
        simp only [deleteMessage, ↓reduceIte]
        rcases hdm : deleteLoop (env.New f.region) f.queueURL 0 rmsgs
          ⟨w1.calls ++ [receiveCall f.queueURL 10], w1.stdout ++ ls, w1.stderr⟩ with ⟨w3, o3⟩
        rw [hdm] at hw3
        simp only at hw3
        subst hw3
        have hall : ∀ l ∈ ls ++ ds, isReceivedLine l = true ∨ isDeletedLine l = true := by
          intro l hl
          rcases List.mem_append.1 hl with h | h
          · exact Or.inl (hls l h)
          · exact Or.inr (hds l h)
        refine ⟨cs, ls ++ ds, ?_, ?_, hcs, by simp, hall, by simp⟩
        · rcases o3 with (_ | e) | _ <;> simp [logFatal, panicStatus]
        · rcases o3 with (_ | e) | _ <;> simp [logFatal, panicStatus]
    · exact ⟨[], ls, by simp [logFatal], by simp [logFatal], by simp, by simp, hrl, fun _ => hls⟩


/-- The send loop when the sends before index `i` succeed and the one at `i`
fails: it stops there. -/
theorem sendLoop_fail (svc : SQS) (url : String) (msgs : List String) (k : Nat) (w : World)
    (i : Nat) (e : Error) (hi : i < msgs.length)
    (hok : SendsSucceed svc url w.calls (msgs.take i))
    (hfail : svc.SendMessage (w.calls ++ (msgs.take i).map (sendCall url)) ⟨url, msgs[i]⟩ = some e) :
    sendLoop svc url k msgs w =
      (⟨w.calls ++ (msgs.take (i + 1)).map (sendCall url),
        w.stdout ++ sentLines k (msgs.take i), w.stderr⟩, some e) := by
  have hsplit : msgs = msgs.take i ++ msgs[i] :: msgs.drop (i + 1) := by
    rw [← List.drop_eq_getElem_cons hi, List.take_append_drop]
  have h1 := sendLoop_append svc url (msgs.take i) (msgs[i] :: msgs.drop (i + 1)) k w hok
  rw [← hsplit] at h1
  rw [h1]
  simp only [sendLoop, hfail]
  have ht : msgs.take (i + 1) = msgs.take i ++ [msgs[i]] := by
    rw [← List.take_concat_get msgs i hi, List.concat_eq_append]
  rw [ht, List.map_append, ← List.append_assoc]
  rfl

/-- The delete loop when the deletions before index `j` succeed, their messages
having bodies, and the one at `j` fails: it stops there. -/
theorem deleteLoop_fail (svc : SQS) (url : String) (rs : List Message) (k : Nat) (w : World)
    (j : Nat) (e : Error) (hj : j < rs.length)
    (hb : ∀ r ∈ rs.take j, r.Body ≠ none)
    (hok : DeletesSucceed svc url w.calls (rs.take j))
    (hfail : svc.DeleteMessage (w.calls ++ (rs.take j).map (deleteCall url))
      ⟨url, rs[j].ReceiptHandle⟩ = some e) :
    deleteLoop svc url k rs w =
      (⟨w.calls ++ (rs.take (j + 1)).map (deleteCall url),
        w.stdout ++ deletedLines k (rs.take j), w.stderr⟩, .ret (some e)) := by
  have hsplit : rs = rs.take j ++ rs[j] :: rs.drop (j + 1) := by
    rw [← List.drop_eq_getElem_cons hj, List.take_append_drop]
  have h1 := deleteLoop_append svc url (rs.take j) (rs[j] :: rs.drop (j + 1)) k w hok hb
  rw [← hsplit] at h1
  rw [h1]
  simp only [deleteLoop, hfail]
  have ht : rs.take (j + 1) = rs.take j ++ [rs[j]] := by
    rw [← List.take_concat_get rs j hj, List.concat_eq_append]
  rw [ht, List.map_append, ← List.append_assoc]
  rfl


/-! ## The claims -/

/-- C1: when every send succeeds, `sendMessage` issues one send call per body,
in input order, each with the configured queue URL, prints the confirmation
lines "message sent i: m_i" in that order and returns no error; on the empty
list it does nothing; and a run of `main` without positional arguments issues
no send call and prints no send confirmation. -/
theorem sendMessage_all_succeed (svc : SQS) (url : String) (msgs : List String) (w : World)
    (h : SendsSucceed svc url w.calls msgs) :
    sendMessage svc url msgs w =
        (⟨w.calls ++ msgs.map (sendCall url), w.stdout ++ sentLines 0 msgs, w.stderr⟩, none) ∧
      sendMessage svc url [] w = (w, none) ∧
      ∀ (env : Env) (f : Flags), f.args = [] →
        (∀ c ∈ (main env f).1.calls, c.isSend = false) ∧
        (∀ l ∈ (main env f).1.stdout, isSentLine l = false) := by
  refine ⟨?_, rfl, ?_⟩
  · have := sendLoop_append svc url msgs [] 0 w h
    simpa [sendMessage, sendLoop] using this
  · intro env f hargs
    by_cases hurl : f.queueURL = ""
    · simp [main, hurl, World.init]
    · obtain ⟨cs, ls, hc, hl, hcs, -, hls, -⟩ :=
        main_from_receive env f World.init hurl (by simp [hargs])
      rw [hc, hl]
      constructor
      · intro c hcm
        simp only [World.init, List.nil_append, List.mem_cons] at hcm
        rcases hcm with rfl | hcm
        · rfl
        · have := hcs c hcm
          cases c <;> simp_all [Call.isSend, Call.isDelete]
      · intro l hlm
        simp only [World.init, List.nil_append] at hlm
        rcases hls l hlm with h1 | h1
        · exact isReceivedLine_not_sent h1
        · exact isDeletedLine_not_sent h1

theorem sendMessage_all_succeed_witness :
    SendsSucceed (steadyService []) "q" World.init.calls ["hello", "world"] ∧
      sendMessage (steadyService []) "q" ["hello", "world"] World.init =
        (⟨[sendCall "q" "hello", sendCall "q" "world"],
          ["message sent 0: hello\n", "message sent 1: world\n"], []⟩, none) :=
  ⟨fun _ _ => rfl,
    (sendMessage_all_succeed (steadyService []) "q" ["hello", "world"] World.init
      (fun _ _ => rfl)).1⟩

/-- C2: when the sends before index `i` succeed and the send at `i` fails,
`sendMessage` issues exactly the sends of indices `0..i`, prints exactly the
confirmations of indices `0..i-1` and returns that error; `main` then ends with
status 1 having issued those send calls and no other call. -/
theorem sendMessage_first_failure (svc : SQS) (url : String) (msgs : List String) (w : World)
    (i : Nat) (e : Error) (hi : i < msgs.length)
    (hok : SendsSucceed svc url w.calls (msgs.take i))
    (hfail : svc.SendMessage (w.calls ++ (msgs.take i).map (sendCall url)) ⟨url, msgs[i]⟩ = some e) :
    sendMessage svc url msgs w =
        (⟨w.calls ++ (msgs.take (i + 1)).map (sendCall url),
          w.stdout ++ sentLines 0 (msgs.take i), w.stderr⟩, some e) ∧
      ∀ (env : Env) (f : Flags), f.queueURL = url → url ≠ "" → f.args = msgs →
        env.New f.region = svc → w.calls = [] →
        main env f =
            (⟨(msgs.take (i + 1)).map (sendCall url), sentLines 0 (msgs.take i),
              [logLine env.logHeader e]⟩, 1) ∧
          (main env f).2 ≠ 0 ∧
          ∀ c ∈ (main env f).1.calls, c.isReceive = false ∧ c.isDelete = false := by
  have key : ∀ w0 : World, w0.calls = w.calls → sendMessage svc url msgs w0 =
      (⟨w0.calls ++ (msgs.take (i + 1)).map (sendCall url),
        w0.stdout ++ sentLines 0 (msgs.take i), w0.stderr⟩, some e) := by
    intro w0 hw0
    exact sendLoop_fail svc url msgs 0 w0 i e hi (hw0 ▸ hok) (hw0 ▸ hfail)
  refine ⟨key w rfl, ?_⟩
  intro env f hq hurl hargs hnew hcalls
  have hpos : msgs.length > 0 := Nat.lt_of_le_of_lt (Nat.zero_le i) hi
  have hmain : main env f =
      (⟨(msgs.take (i + 1)).map (sendCall url), sentLines 0 (msgs.take i),
        [logLine env.logHeader e]⟩, 1) := by
    have hk := key World.init (by simp [World.init, hcalls])
    subst hq hargs hnew
    simp only [main, hurl, ↓reduceIte, hpos, hk]
    simp [logFatal, World.init]
  refine ⟨hmain, ?_, ?_⟩
  · rw [hmain]; exact Nat.one_ne_zero
  · rw [hmain]
    intro c hc
    obtain ⟨m, -, rfl⟩ := List.mem_map.1 hc
    exact ⟨rfl, rfl⟩

theorem sendMessage_first_failure_witness :
    main (sampleEnv (faultyService 1 "AccessDenied" [])) ⟨"us-east-1", "q", true, ["a", "b", "c"]⟩ =
      (⟨[sendCall "q" "a", sendCall "q" "b"], ["message sent 0: a\n"],
        ["2015/06/01 12:00:00 AccessDenied\n"]⟩, 1) :=
  ((sendMessage_first_failure (faultyService 1 "AccessDenied" []) "q" ["a", "b", "c"] World.init
      1 "AccessDenied" (by decide)
      (fun j hj => by
        have hj0 : j = 0 := by simpa using hj
        subst hj0
        rfl)
      rfl).2
    (sampleEnv (faultyService 1 "AccessDenied" [])) ⟨"us-east-1", "q", true, ["a", "b", "c"]⟩
    rfl (by decide) rfl rfl rfl).1

/-- C3: with an empty `-queue-url` value the program, whatever the region, the
`-delete` flag and the positional arguments, exits with status 1 without having
issued a call or written to standard output. -/
theorem main_empty_queueURL (env : Env) (f : Flags) (h : f.queueURL = "") :
    (main env f).2 = 1 ∧ (main env f).1.calls = [] ∧ (main env f).1.stdout = [] := by
  simp [main, h, World.init]

theorem main_empty_queueURL_witness :
    (main (sampleEnv (steadyService [⟨some "a", some "h"⟩]))
        ⟨"eu-west-1", "", true, ["x", "y"]⟩).2 = 1 ∧
      (main (sampleEnv (steadyService [⟨some "a", some "h"⟩]))
        ⟨"eu-west-1", "", true, ["x", "y"]⟩).1.calls = [] ∧
      (main (sampleEnv (steadyService [⟨some "a", some "h"⟩]))
        ⟨"eu-west-1", "", true, ["x", "y"]⟩).1.stdout = [] :=
  main_empty_queueURL (sampleEnv (steadyService [⟨some "a", some "h"⟩]))
    ⟨"eu-west-1", "", true, ["x", "y"]⟩ rfl


/-- The usage text does not occur in the line written for a missing queue URL. -/
theorem usage_not_in_requiredLine (prog defaults : String) :
    ¬ Shows [requiredLine] (Usage prog defaults) := by
  intro h
  have hU : 'U' ∈ (Usage prog defaults).data := by
    simp [Usage, String.data_append]
  have hmem : 'U' ∈ (String.join [requiredLine]).data := h.subset hU
  revert hmem
  decide

/-- C4, as stated, fails: with no `-queue-url` the standard error text of the
run does not hold both the usage text and the line "-queue-url is required". -/
theorem usage_shown_counterexample :
    ¬ (Shows (main (sampleEnv (steadyService [])) ⟨"us-east-1", "", false, []⟩).1.stderr
          (Usage "sqs" flagDefaults) ∧
        Shows (main (sampleEnv (steadyService [])) ⟨"us-east-1", "", false, []⟩).1.stderr
          requiredLine) := by
  rintro ⟨h, -⟩
  exact usage_not_in_requiredLine "sqs" flagDefaults h

/-- C4, amended: with an empty `-queue-url` value `main` writes to standard
error the line "-queue-url is required" and nothing else; the usage text is not
part of it, whatever the program name and the flag defaults. -/
theorem main_empty_queueURL_stderr (env : Env) (f : Flags) (h : f.queueURL = "") :
    (main env f).1.stderr = ["-queue-url is required\n"] ∧
      Shows (main env f).1.stderr "-queue-url is required\n" ∧
      ∀ prog defaults : String, ¬ Shows (main env f).1.stderr (Usage prog defaults) := by
  have hs : (main env f).1.stderr = [requiredLine] := by simp [main, h, World.init]
  rw [hs]
  refine ⟨rfl, ?_, usage_not_in_requiredLine⟩
  exact ⟨[], [], by decide⟩

theorem main_empty_queueURL_stderr_witness :
    (main (sampleEnv (steadyService [])) ⟨"us-east-1", "", false, ["m"]⟩).1.stderr =
      ["-queue-url is required\n"] :=
  (main_empty_queueURL_stderr (sampleEnv (steadyService [])) ⟨"us-east-1", "", false, ["m"]⟩
    rfl).1

/-- C5: in a run with a queue URL in which every send, if any, succeeds, `main`
issues exactly one receive call, for at most 10 messages of the configured
queue, whatever the positional arguments, the `-delete` flag and the answers of
the service to the receive and to the deletions. -/
theorem main_receives_ten (env : Env) (f : Flags) (hurl : f.queueURL ≠ "")
    (hs : SendsSucceed (env.New f.region) f.queueURL [] f.args) :
    (main env f).1.calls.filter Call.isReceive = [Call.receive ⟨f.queueURL, 10⟩] := by
  obtain ⟨cs, ls, hc, -, hcs, -, -, -⟩ := main_from_receive env f _ hurl
    (sendStep_ok (env.New f.region) f.queueURL f.args hs)
  rw [hc]
  have h1 : (f.args.map (sendCall f.queueURL)).filter Call.isReceive = [] := by
    rw [List.filter_eq_nil_iff]
    intro c hcm
    obtain ⟨m, -, rfl⟩ := List.mem_map.1 hcm
    simp [sendCall, Call.isReceive]
  have h2 : cs.filter Call.isReceive = [] := by
    rw [List.filter_eq_nil_iff]
    intro c hcm
    have := hcs c hcm
    cases c <;> simp_all [Call.isReceive, Call.isDelete]
  simp [List.filter_cons, h1, h2, receiveCall, Call.isReceive]

theorem main_receives_ten_witness :
    (main (sampleEnv (steadyService [⟨some "a", some "h"⟩]))
        ⟨"us-east-1", "q", true, ["x", "y", "z"]⟩).1.calls.filter Call.isReceive =
      [Call.receive ⟨"q", 10⟩] :=
  main_receives_ten (sampleEnv (steadyService [⟨some "a", some "h"⟩]))
    ⟨"us-east-1", "q", true, ["x", "y", "z"]⟩ (by decide) (fun _ _ => rfl)

/-- C6: on a successful receive response whose messages all have a body,
`receiveMessage` issues the one receive call, prints the lines
"message received i: body(r_i)" in order and returns the messages of the
response, unchanged and in order, with no error; with no message in the
response it prints nothing and returns the empty sequence with no error. -/
theorem receiveMessage_ok (svc : SQS) (url : String) (count : Int) (w : World)
    (rs : List Message)
    (hr : svc.ReceiveMessage w.calls ⟨url, count⟩ = .ok ⟨rs⟩)
    (hb : ∀ r ∈ rs, r.Body ≠ none) :
    receiveMessage svc url count w =
        (⟨w.calls ++ [receiveCall url count], w.stdout ++ receivedLines 0 rs, w.stderr⟩,
          .ret (rs, none)) ∧
      (rs = [] → receiveMessage svc url count w =
        (⟨w.calls ++ [receiveCall url count], w.stdout, w.stderr⟩, .ret ([], none))) := by
  have key : receiveMessage svc url count w =
      (⟨w.calls ++ [receiveCall url count], w.stdout ++ receivedLines 0 rs, w.stderr⟩,
        .ret (rs, none)) := by
    simp only [receiveMessage, hr, printReceived_bodies rs 0 _ hb]
    rfl
  refine ⟨key, ?_⟩
  intro hnil
  subst hnil
  simpa [receivedLines] using key

theorem receiveMessage_ok_witness :
    receiveMessage (steadyService [⟨some "a", some "h1"⟩, ⟨some "b", none⟩]) "q" 10 World.init =
      (⟨[receiveCall "q" 10], ["message received 0: a\n", "message received 1: b\n"], []⟩,
        .ret ([⟨some "a", some "h1"⟩, ⟨some "b", none⟩], none)) :=
  (receiveMessage_ok (steadyService [⟨some "a", some "h1"⟩, ⟨some "b", none⟩]) "q" 10 World.init
    [⟨some "a", some "h1"⟩, ⟨some "b", none⟩] rfl (by decide)).1


/-- The delete loop when every deletion succeeds and every message has a body. -/
theorem deleteMessage_all (svc : SQS) (url : String) (rs : List Message) (w : World)
    (hd : DeletesSucceed svc url w.calls rs) (hb : ∀ r ∈ rs, r.Body ≠ none) :
    deleteMessage svc url rs w =
      (⟨w.calls ++ rs.map (deleteCall url), w.stdout ++ deletedLines 0 rs, w.stderr⟩,
        .ret none) := by
  have := deleteLoop_append svc url rs [] 0 w hd hb
  simpa [deleteMessage, deleteLoop] using this

/-- C7: in a run with `-delete` in which the sends, the receive and every
deletion succeed, the receive returning `rs` (every message with its body, as a
receive step that returns requires), `main` issues after the receive exactly
one delete call per received message, in received order, each with the receipt
handle of its message and the configured queue URL, prints the lines
"message deleted i: body(r_i)" in that order and exits with status 0; with no
message received no delete call is issued and the status is 0. -/
theorem main_deletes_received (env : Env) (f : Flags) (rs : List Message)
    (hurl : f.queueURL ≠ "") (hdel : f.delete = true)
    (hs : SendsSucceed (env.New f.region) f.queueURL [] f.args)
    (hr : (env.New f.region).ReceiveMessage (f.args.map (sendCall f.queueURL))
      ⟨f.queueURL, 10⟩ = .ok ⟨rs⟩)
    (hb : ∀ r ∈ rs, r.Body ≠ none)
    (hd : DeletesSucceed (env.New f.region) f.queueURL
      (f.args.map (sendCall f.queueURL) ++ [receiveCall f.queueURL 10]) rs) :
    main env f =
        (⟨f.args.map (sendCall f.queueURL) ++ [receiveCall f.queueURL 10] ++
            rs.map (deleteCall f.queueURL),
          sentLines 0 f.args ++ receivedLines 0 rs ++ deletedLines 0 rs, []⟩, 0) ∧
      (rs = [] → (main env f).2 = 0 ∧ ∀ c ∈ (main env f).1.calls, c.isDelete = false) := by
  have hrecv := (receiveMessage_ok (env.New f.region) f.queueURL 10
    ⟨f.args.map (sendCall f.queueURL), sentLines 0 f.args, []⟩ rs hr hb).1
  have hdm := deleteMessage_all (env.New f.region) f.queueURL rs
    ⟨f.args.map (sendCall f.queueURL) ++ [receiveCall f.queueURL 10],
      sentLines 0 f.args ++ receivedLines 0 rs, []⟩ hd hb
  have hmain : main env f =
      (⟨f.args.map (sendCall f.queueURL) ++ [receiveCall f.queueURL 10] ++
          rs.map (deleteCall f.queueURL),
        sentLines 0 f.args ++ receivedLines 0 rs ++ deletedLines 0 rs, []⟩, 0) := by
    simp only [main, hurl, ↓reduceIte, sendStep_ok (env.New f.region) f.queueURL f.args hs,
      hrecv, hdel, hdm]
  refine ⟨hmain, ?_⟩
  intro hnil
  subst hnil
  rw [hmain]
  refine ⟨rfl, ?_⟩
  intro c hc
  simp only [List.map_nil, List.append_nil, List.mem_append, List.mem_singleton] at hc
  rcases hc with hc | rfl
  · obtain ⟨m, -, rfl⟩ := List.mem_map.1 hc
    rfl
  · rfl

theorem main_deletes_received_witness :
    main (sampleEnv (steadyService [⟨some "a", some "h1"⟩, ⟨some "b", some "h2"⟩]))
        ⟨"us-east-1", "q", true, ["x"]⟩ =
      (⟨[sendCall "q" "x", receiveCall "q" 10, Call.delete ⟨"q", some "h1"⟩,
          Call.delete ⟨"q", some "h2"⟩],
        ["message sent 0: x\n", "message received 0: a\n", "message received 1: b\n",
          "message deleted 0: a\n", "message deleted 1: b\n"], []⟩, 0) :=
  (main_deletes_received
    (sampleEnv (steadyService [⟨some "a", some "h1"⟩, ⟨some "b", some "h2"⟩]))
    ⟨"us-east-1", "q", true, ["x"]⟩ [⟨some "a", some "h1"⟩, ⟨some "b", some "h2"⟩]
    (by decide) rfl (fun _ _ => rfl) rfl (by decide) (fun _ _ => rfl)).1

/-- C8: in a run without `-delete`, `main` issues no delete call and prints no
"message deleted" line, whatever the service answers and however many messages
the receive returns. -/
theorem main_without_delete (env : Env) (f : Flags) (hdel : f.delete = false) :
    (∀ c ∈ (main env f).1.calls, c.isDelete = false) ∧
      (∀ l ∈ (main env f).1.stdout, isDeletedLine l = false) := by
  by_cases hurl : f.queueURL = ""
  · simp [main, hurl, World.init]
  · have hsend : ∀ c : Call, c.isSend = true → c.isDelete = false := by
      intro c hc
      cases c <;> simp_all [Call.isSend, Call.isDelete]
    rcases hsent : (if f.args.length > 0 then
        sendMessage (env.New f.region) f.queueURL f.args World.init
        else (World.init, none)) with ⟨w1, r⟩
    have hw1 : (∀ c ∈ w1.calls, c.isSend = true) ∧ (∀ l ∈ w1.stdout, isSentLine l = true) := by
      by_cases hlen : f.args.length > 0
      · obtain ⟨cs, ls, h1, h2, h3⟩ :=
          sendLoop_frame (env.New f.region) f.queueURL f.args 0 World.init
        rw [if_pos hlen, sendMessage] at hsent
        rw [hsent] at h1
        simp only [World.init, List.nil_append] at h1
        subst h1
        exact ⟨h2, h3⟩
      · rw [if_neg hlen] at hsent
        have h1 : w1 = World.init := (congrArg Prod.fst hsent).symm
        subst h1
        simp [World.init]
    cases r with
    | some e =>
      have hmain : main env f = logFatal env e w1 := by
        simp only [main, hurl, ↓reduceIte, hsent]
      rw [hmain]
      exact ⟨fun c hc => hsend c (hw1.1 c hc), fun l hl => isSentLine_not_deleted (hw1.2 l hl)⟩
    | none =>
      obtain ⟨cs, ls, hc, hl, -, hcs, -, hls⟩ := main_from_receive env f w1 hurl hsent
      rw [hc, hl, hcs hdel]
      constructor
      · intro c hcm
        rcases List.mem_append.1 hcm with h | h
        · exact hsend c (hw1.1 c h)
        · rw [List.mem_singleton.1 h]
          rfl
      · intro l hlm
        rcases List.mem_append.1 hlm with h | h
        · exact isSentLine_not_deleted (hw1.2 l h)
        · exact isReceivedLine_not_deleted (hls hdel l h)

theorem main_without_delete_witness :
    (∀ c ∈ (main (sampleEnv (steadyService [⟨some "a", some "h1"⟩]))
        ⟨"us-east-1", "q", false, ["x"]⟩).1.calls, c.isDelete = false) ∧
      (∀ l ∈ (main (sampleEnv (steadyService [⟨some "a", some "h1"⟩]))
        ⟨"us-east-1", "q", false, ["x"]⟩).1.stdout, isDeletedLine l = false) :=
  main_without_delete (sampleEnv (steadyService [⟨some "a", some "h1"⟩]))
    ⟨"us-east-1", "q", false, ["x"]⟩ rfl


/-- C9: when the deletions before index `j` succeed and the deletion of `r_j`
fails, `deleteMessage` issues exactly the deletions of indices `0..j`, prints
exactly the confirmations of indices `0..j-1` and returns that error; in a run
of `main` with `-delete` that has sent its arguments and received `rs`, the
process then ends with status 1 and no further call. -/
theorem deleteMessage_first_failure (svc : SQS) (url : String) (rs : List Message) (w : World)
    (j : Nat) (e : Error) (hj : j < rs.length)
    (hb : ∀ r ∈ rs.take j, r.Body ≠ none)
    (hok : DeletesSucceed svc url w.calls (rs.take j))
    (hfail : svc.DeleteMessage (w.calls ++ (rs.take j).map (deleteCall url))
      ⟨url, rs[j].ReceiptHandle⟩ = some e) :
    deleteMessage svc url rs w =
        (⟨w.calls ++ (rs.take (j + 1)).map (deleteCall url),
          w.stdout ++ deletedLines 0 (rs.take j), w.stderr⟩, .ret (some e)) ∧
      ∀ (env : Env) (f : Flags), f.queueURL = url → url ≠ "" → env.New f.region = svc →
        f.delete = true → SendsSucceed svc url [] f.args →
        svc.ReceiveMessage (f.args.map (sendCall url)) ⟨url, 10⟩ = .ok ⟨rs⟩ →
        (∀ r ∈ rs, r.Body ≠ none) →
        w.calls = f.args.map (sendCall url) ++ [receiveCall url 10] →
        main env f =
            (⟨f.args.map (sendCall url) ++ [receiveCall url 10] ++
                (rs.take (j + 1)).map (deleteCall url),
              sentLines 0 f.args ++ receivedLines 0 rs ++ deletedLines 0 (rs.take j),
              [logLine env.logHeader e]⟩, 1) ∧
          (main env f).2 ≠ 0 := by
  have key : ∀ w0 : World, w0.calls = w.calls → deleteMessage svc url rs w0 =
      (⟨w0.calls ++ (rs.take (j + 1)).map (deleteCall url),
        w0.stdout ++ deletedLines 0 (rs.take j), w0.stderr⟩, .ret (some e)) := by
    intro w0 hw0
    exact deleteLoop_fail svc url rs 0 w0 j e hj hb (hw0 ▸ hok) (hw0 ▸ hfail)
  refine ⟨key w rfl, ?_⟩
  intro env f hq hurl hnew hdel hs hr hball hcalls
  have hrecv := (receiveMessage_ok svc url 10
    ⟨f.args.map (sendCall url), sentLines 0 f.args, []⟩ rs hr hball).1
  have hk := key ⟨f.args.map (sendCall url) ++ [receiveCall url 10],
    sentLines 0 f.args ++ receivedLines 0 rs, []⟩ hcalls.symm
  have hmain : main env f =
      (⟨f.args.map (sendCall url) ++ [receiveCall url 10] ++
          (rs.take (j + 1)).map (deleteCall url),
        sentLines 0 f.args ++ receivedLines 0 rs ++ deletedLines 0 (rs.take j),
        [logLine env.logHeader e]⟩, 1) := by
    subst hq hnew
    simp only [main, hurl, ↓reduceIte, sendStep_ok (env.New f.region) f.queueURL f.args hs,
      hrecv, hdel, hk]
    simp [logFatal]
  refine ⟨hmain, ?_⟩
  rw [hmain]
  exact Nat.one_ne_zero

theorem deleteMessage_first_failure_witness :
    main (sampleEnv (faultyService 2 "ReceiptHandleIsInvalid"
        [⟨some "a", some "h1"⟩, ⟨some "b", some "h2"⟩, ⟨some "c", some "h3"⟩]))
        ⟨"us-east-1", "q", true, []⟩ =
      (⟨[receiveCall "q" 10, Call.delete ⟨"q", some "h1"⟩, Call.delete ⟨"q", some "h2"⟩],
        ["message received 0: a\n", "message received 1: b\n", "message received 2: c\n",
          "message deleted 0: a\n"],
        ["2015/06/01 12:00:00 ReceiptHandleIsInvalid\n"]⟩, 1) :=
  ((deleteMessage_first_failure
      (faultyService 2 "ReceiptHandleIsInvalid"
        [⟨some "a", some "h1"⟩, ⟨some "b", some "h2"⟩, ⟨some "c", some "h3"⟩])
      "q" [⟨some "a", some "h1"⟩, ⟨some "b", some "h2"⟩, ⟨some "c", some "h3"⟩]
      ⟨[receiveCall "q" 10], [], []⟩ 1 "ReceiptHandleIsInvalid" (by decide) (by decide)
      (fun j hj => by
        have hj0 : j = 0 := by simpa using hj
        subst hj0
        rfl)
      rfl).2
    (sampleEnv (faultyService 2 "ReceiptHandleIsInvalid"
        [⟨some "a", some "h1"⟩, ⟨some "b", some "h2"⟩, ⟨some "c", some "h3"⟩]))
    ⟨"us-east-1", "q", true, []⟩ rfl (by decide) rfl rfl
    (fun _ h => absurd h (Nat.not_lt_zero _)) rfl (by decide) rfl).1

/-- C10: when the receive call fails, `receiveMessage` returns no message
together with that error and prints nothing; in a run of `main` whose sends, if
any, succeeded, the process then ends with status 1 and without any delete
call, with or without `-delete`. -/
theorem receiveMessage_failure (svc : SQS) (url : String) (count : Int) (w : World) (e : Error)
    (hr : svc.ReceiveMessage w.calls ⟨url, count⟩ = .error e) :
    receiveMessage svc url count w =
        (⟨w.calls ++ [receiveCall url count], w.stdout, w.stderr⟩, .ret ([], some e)) ∧
      ∀ (env : Env) (f : Flags), f.queueURL = url → url ≠ "" → env.New f.region = svc →
        count = 10 → SendsSucceed svc url [] f.args →
        w.calls = f.args.map (sendCall url) →
        main env f =
            (⟨f.args.map (sendCall url) ++ [receiveCall url 10], sentLines 0 f.args,
              [logLine env.logHeader e]⟩, 1) ∧
          (main env f).2 ≠ 0 ∧
          ∀ c ∈ (main env f).1.calls, c.isDelete = false := by
  have key : ∀ w0 : World, w0.calls = w.calls → receiveMessage svc url count w0 =
      (⟨w0.calls ++ [receiveCall url count], w0.stdout, w0.stderr⟩, .ret ([], some e)) := by
    intro w0 hw0
    have hr0 : svc.ReceiveMessage w0.calls ⟨url, count⟩ = .error e := hw0 ▸ hr
    simp only [receiveMessage, hr0]
    rfl
  refine ⟨key w rfl, ?_⟩
  intro env f hq hurl hnew hcount hs hcalls
  have hk := key ⟨f.args.map (sendCall url), sentLines 0 f.args, []⟩ hcalls.symm
  have hmain : main env f =
      (⟨f.args.map (sendCall url) ++ [receiveCall url 10], sentLines 0 f.args,
        [logLine env.logHeader e]⟩, 1) := by
    subst hq hnew hcount
    simp only [main, hurl, ↓reduceIte, sendStep_ok (env.New f.region) f.queueURL f.args hs, hk]
    simp [logFatal]
  refine ⟨hmain, ?_, ?_⟩
  · rw [hmain]
    exact Nat.one_ne_zero
  · rw [hmain]
    intro c hc
    rcases List.mem_append.1 hc with h | h
    · obtain ⟨m, -, rfl⟩ := List.mem_map.1 h
      rfl
    · rw [List.mem_singleton.1 h]
      rfl

theorem receiveMessage_failure_witness :
    main (sampleEnv (deafService "RequestTimeout")) ⟨"us-east-1", "q", true, ["x"]⟩ =
      (⟨[sendCall "q" "x", receiveCall "q" 10], ["message sent 0: x\n"],
        ["2015/06/01 12:00:00 RequestTimeout\n"]⟩, 1) :=
  ((receiveMessage_failure (deafService "RequestTimeout") "q" 10
      ⟨[sendCall "q" "x"], ["message sent 0: x\n"], []⟩ "RequestTimeout" rfl).2
    (sampleEnv (deafService "RequestTimeout")) ⟨"us-east-1", "q", true, ["x"]⟩
    rfl (by decide) rfl rfl (fun _ _ => rfl) rfl).1

end SQSSample
